import Mathlib

/-!
Verification of core components of the testcrush STL compaction engine.

Shallow embedding of the Python sources under `src/testcrush/`:
`asm.py` (Codeline, ISA, AssemblyHandler), `zoix.py` (ZoixInvoker.logic_simulate,
Fault, CSVFaultReport.compute_flist_coverage), `a0.py` / `a1xx.py` (evaluate,
anchor update, statistics emission, Preprocessor.query_trace_db) and
`grammars/transformers.py` (FaultReportFaultListTransformer).

Files are modelled as lists of characters, Python strings as `List Char`,
Python ints as `Int`, Python floats produced by true division as `ℚ`
(the concrete values involved are exactly representable).
-/

namespace TestCrush

/-! ## Python string primitives

`pyIsSpace` is Python's `str.isspace` on the characters actually produced by
the `\s` class of `re` for ASCII text: space, tab, newline, carriage return,
vertical tab, form feed. -/

def pyIsSpace (c : Char) : Bool :=
  c = ' ' || c = '\t' || c = '\n' || c = '\r' || c = '\x0b' || c = '\x0c'

/-- Python `str.split()` with no arguments: split on runs of whitespace,
no empty tokens.  Accumulator holds the current token reversed. -/
def pySplitAux : List Char → List Char → List (List Char)
  | [], acc => if acc.isEmpty then [] else [acc.reverse]
  | c :: cs, acc =>
      if pyIsSpace c then
        if acc.isEmpty then pySplitAux cs [] else acc.reverse :: pySplitAux cs []
      else pySplitAux cs (c :: acc)

def pySplit (s : List Char) : List (List Char) :=
  pySplitAux s []

/-- Python `str.strip()`: drop leading and trailing whitespace. -/
def pyStrip (s : List Char) : List Char :=
  ((s.dropWhile pyIsSpace).reverse.dropWhile pyIsSpace).reverse

/-- Embedding of `re.sub(r'\s+', ' ', s)`: each maximal whitespace run
becomes one space.  `inRun` records whether the previous character belonged
to a whitespace run already replaced. -/
def collapseWsAux : List Char → Bool → List Char
  | [], _ => []
  | c :: cs, inRun =>
      if pyIsSpace c then
        if inRun then collapseWsAux cs true else ' ' :: collapseWsAux cs true
      else c :: collapseWsAux cs false

def collapseWs (s : List Char) : List Char :=
  collapseWsAux s false

/-- The per-line normalisation of `AssemblyHandler.__init__`:
`re.sub(r'\s+', ' ', line.strip())`. -/
def normalizeLine (s : List Char) : List Char :=
  collapseWs (pyStrip s)

/-! ## Codeline (`asm.py`)

`ident` models Python object identity (the `is` comparison in
`AssemblyHandler.restore`); the remaining fields are the dataclass fields. -/

structure Codeline where
  ident : Nat
  lineno : Int
  data : List Char
  valid_insn : Bool
deriving DecidableEq, Repr

/-- `Codeline.__isub__` for an `int` right-hand side: subtract only when the
current `lineno` is positive. -/
def codelineIsub (c : Codeline) (n : Int) : Codeline :=
  if 0 < c.lineno then { c with lineno := c.lineno - n } else c

/-- `Codeline.__iadd__` for an `int` right-hand side. -/
def codelineIadd (c : Codeline) (n : Int) : Codeline :=
  { c with lineno := c.lineno + n }

/-! ## ISA (`asm.py`)

`ISA.is_instruction` indexes `assembly_line.split()[0]` unconditionally;
`none` models the `IndexError` raised when the split is empty. -/

def isInstructionOpt (mnemonics : List (List Char)) (assembly_line : List Char) :
    Option Bool :=
  match pySplit assembly_line with
  | [] => none
  | t :: _ => some (mnemonics.contains t)

/-! Helper lemmas about `pySplit`. -/

theorem pySplitAux_ne_nil_of_acc_ne_nil (s acc : List Char) (h : acc ≠ []) :
    pySplitAux s acc ≠ [] := by
  induction s generalizing acc with
  | nil =>
      simp only [pySplitAux, List.isEmpty_iff]
      simp [h]
  | cons c cs ih =>
      simp only [pySplitAux]
      by_cases hc : pyIsSpace c
      · simp only [hc, if_true, List.isEmpty_iff]
        simp [h]
      · simp only [hc, if_false]
        exact ih (c :: acc) (by simp)

theorem pySplit_eq_nil_iff (s : List Char) :
    pySplit s = [] ↔ s.all pyIsSpace := by
  unfold pySplit
  induction s with
  | nil => simp [pySplitAux]
  | cons c cs ih =>
      simp only [pySplitAux, List.isEmpty_nil, if_true, List.all_cons]
      by_cases hc : pyIsSpace c
      · simp [hc, ih]
      · simp only [hc, if_false, Bool.false_and, List.isEmpty_iff]
        constructor
        · intro h
          exact absurd h (pySplitAux_ne_nil_of_acc_ne_nil cs [c] (by simp))
        · intro h
          cases h

/-! ## Files as character lists (`asm.py` I/O)

Python's iteration over an open text file yields the lines of the content
with their terminating newline kept; the final line may lack one.
`splitLinesAux`/`splitLines` reproduce that split. -/

def splitLinesAux : List Char → List Char → List (List Char)
  | [], acc => if acc.isEmpty then [] else [acc.reverse]
  | c :: cs, acc =>
      if c = '\n' then (acc.reverse ++ ['\n']) :: splitLinesAux cs []
      else splitLinesAux cs (c :: acc)

def splitLines (content : List Char) : List (List Char) :=
  splitLinesAux content []

/-- The copy loop of `AssemblyHandler.remove`: every enumerated line whose
0-based index differs from `k` is written back verbatim. -/
def removeLineAt : List (List Char) → Int → List (List Char)
  | [], _ => []
  | l :: ls, k => if k = 0 then ls else l :: removeLineAt ls (k - 1)

/-- The copy loop of `AssemblyHandler.restore`: when the enumerated index
equals `k` the restored data plus `'\n'` is written first; if the index is
never reached the restored data plus `'\n'` is appended at the end. -/
def insertLineAt : List (List Char) → Int → List Char → List (List Char)
  | [], _, d => [d ++ ['\n']]
  | l :: ls, k, d => if k = 0 then (d ++ ['\n']) :: l :: ls else l :: insertLineAt ls (k - 1) d

/-- On-disk effect of `AssemblyHandler.remove` for a codeline at `lineno = k`. -/
def fileRemove (content : List Char) (k : Int) : List Char :=
  (removeLineAt (splitLines content) k).flatten

/-- On-disk effect of `AssemblyHandler.restore` for a codeline at `lineno = k`
with text `d`. -/
def fileRestore (content : List Char) (k : Int) (d : List Char) : List Char :=
  (insertLineAt (splitLines content) k d).flatten

/-! ## AssemblyHandler state (`asm.py`) -/

/-- The chunking of the candidate list performed at the end of
`AssemblyHandler.__init__`:
`[cands[i:i+chunksize] for i in range(0, len(cands), chunksize)]`.
Written with an explicit fuel argument (the list's length bounds the number
of chunks) so the recursion is structural. -/
def chunkListAux (chunksize : Nat) : Nat → List α → List (List α)
  | _, [] => []
  | 0, _ :: _ => []
  | Nat.succ fuel, x :: xs =>
      if chunksize = 0 then []
      else (x :: xs).take chunksize :: chunkListAux chunksize fuel ((x :: xs).drop chunksize)

def chunkList (chunksize : Nat) (l : List α) : List (List α) :=
  chunkListAux chunksize l.length l

/-- The line scan of `AssemblyHandler.__init__`: enumerate the file's lines
from 0, normalise each, skip empty results, record whether the normalised
line is an instruction.  Object identity (`ident`) is the original line
number, which is unique. -/
def scanCodeArea (mnemonics : List (List Char)) : List (List Char) → Nat → List Codeline
  | [], _ => []
  | l :: ls, i =>
      let nl := normalizeLine l
      if nl = [] then scanCodeArea mnemonics ls (i + 1)
      else
        { ident := i, lineno := (i : Int), data := nl,
          valid_insn := (isInstructionOpt mnemonics nl).getD false } ::
          scanCodeArea mnemonics ls (i + 1)

structure AsmHandlerState where
  file : List Char
  candidates : List (List Codeline)
  asm_file_changelog : List Codeline
deriving DecidableEq, Repr

/-- `AssemblyHandler.__init__`: read the file, build the code list, keep the
instruction lines, chunk them. -/
def mkHandler (mnemonics : List (List Char)) (content : List Char) (chunksize : Nat) :
    AsmHandlerState :=
  let code := scanCodeArea mnemonics (splitLines content) 0
  { file := content
    candidates := chunkList chunksize (code.filter (·.valid_insn))
    asm_file_changelog := [] }

/-- `AssemblyHandler.remove`: rewrite the file without the line at
`codeline.lineno`, apply `-= 1` to every candidate with a greater `lineno`
(the comparison `chunk_codeline > codeline.lineno` is by line number), and
append the codeline to the changelog. -/
def handlerRemove (s : AsmHandlerState) (codeline : Codeline) : AsmHandlerState :=
  { file := fileRemove s.file codeline.lineno
    candidates := s.candidates.map (List.map (fun cl =>
      if codeline.lineno < cl.lineno then codelineIsub cl 1 else cl))
    asm_file_changelog := s.asm_file_changelog ++ [codeline] }

/-- `AssemblyHandler.restore`: pop the last changelog entry; apply `+= 1` to
every candidate with `lineno ≥` the restored line number, skipping the very
object being restored (`is` comparison, modelled by `ident`); re-insert the
restored data into the file. -/
def handlerRestore (s : AsmHandlerState) : AsmHandlerState :=
  match s.asm_file_changelog.getLast? with
  | none => s
  | some c =>
      { file := fileRestore s.file c.lineno c.data
        candidates := s.candidates.map (List.map (fun cl =>
          if cl.ident = c.ident then cl
          else if c.lineno ≤ cl.lineno then codelineIadd cl 1 else cl))
        asm_file_changelog := s.asm_file_changelog.dropLast }

/-! ## Verdict and anchor update (`a0.py` `A0.evaluate`, `a1xx.py` `A1xx.run`)

`A0.evaluate` and `A1xx.evaluate` are textually identical:
`(new_tat <= old_tat) and (new_coverage >= old_coverage)`. -/

def evaluate (previous_result new_result : Int × ℚ) : Bool :=
  decide (new_result.1 ≤ previous_result.1) && decide (previous_result.2 ≤ new_result.2)

inductive CompactionPolicy where
  | Maximize
  | Threshold
deriving DecidableEq, Repr

/-- The accepted-trial anchor update of `A1xx.run`: under `Maximize` the new
stats replace the old; under `Threshold` only the TaT is taken and the old
coverage is kept (`old_stl_stats = (new_stl_stats[0], old_stl_stats[1])`). -/
def anchorUpdate (policy : CompactionPolicy) (old_stats new_stats : Int × ℚ) : Int × ℚ :=
  match policy with
  | .Maximize => new_stats
  | .Threshold => (new_stats.1, old_stats.2)

/-- One verdict step of the driver: on ACCEPT the anchor is updated per
policy, on REJECT it is unchanged. -/
def anchorStep (policy : CompactionPolicy) (anchor trial : Int × ℚ) : Int × ℚ :=
  if evaluate anchor trial then anchorUpdate policy anchor trial else anchor

/-! ## ZoixInvoker.logic_simulate (`zoix.py`)

A stdout line is abstracted by what the two configured regular expressions
do on it: whether `simulation_ok_regex` matches, and whether
`test_application_time_regex` matches and what integer (if any) its capture
group parses to (`some none` = the capture is not an integer, which raises
`LogicSimulationException`). -/

structure SimLine where
  ok_match : Bool
  tat_capture : Option (Option Int)
deriving DecidableEq, Repr

/-- Result of `ZoixInvoker.execute` for one command. `timedOut` stands for
the sentinel pair `("TimeoutExpired", "TimeoutExpired")`; otherwise the
stderr text and the stdout lines are kept. -/
inductive CmdResult where
  | timedOut
  | completed (stderr : String) (stdout_lines : List SimLine)
deriving DecidableEq, Repr

inductive LogicSimulation where
  | TIMEOUT
  | SIM_ERROR
  | SUCCESS
deriving DecidableEq, Repr

/-- The stdout scan of `logic_simulate` for one command: update the two
flags line by line, append parsed TaT values, break once both flags hold
(the break is at the end of the loop body, so the breaking line is fully
processed); a non-integer capture raises. -/
def scanStdout : List SimLine → Bool → Bool → List Int →
    Except Unit (Bool × Bool × List Int)
  | [], exit_success, tat_success, tat_value => .ok (exit_success, tat_success, tat_value)
  | ln :: rest, exit_success, tat_success, tat_value =>
      let exit_success := exit_success || ln.ok_match
      match ln.tat_capture with
      | none =>
          if tat_success && exit_success then .ok (exit_success, tat_success, tat_value)
          else scanStdout rest exit_success tat_success tat_value
      | some none => .error ()
      | some (some n) =>
          let tat_value := tat_value ++ [n]
          if exit_success then .ok (exit_success, true, tat_value)
          else scanStdout rest exit_success true tat_value

/-- The command loop of `logic_simulate`: non-sentinel stderr breaks with
`SIM_ERROR`; the sentinel pair breaks with `TIMEOUT`; otherwise the stdout
is scanned and the loop continues. -/
def lsimLoop : List CmdResult → Bool → Bool → List Int → Option LogicSimulation →
    Except Unit (Option LogicSimulation × Bool × Bool × List Int)
  | [], exit_success, tat_success, tat_value, status =>
      .ok (status, exit_success, tat_success, tat_value)
  | cmd :: rest, exit_success, tat_success, tat_value, _status =>
      match cmd with
      | .timedOut => .ok (some .TIMEOUT, exit_success, tat_success, tat_value)
      | .completed stderr lines =>
          if stderr ≠ "" && stderr ≠ "TimeoutExpired" then
            .ok (some .SIM_ERROR, exit_success, tat_success, tat_value)
          else
            match scanStdout lines exit_success tat_success tat_value with
            | .error e => .error e
            | .ok (es, ts, tat) => lsimLoop rest es ts tat none

/-- `ZoixInvoker.logic_simulate`: run the loop, then apply the final status
resolution (`SUCCESS` whenever both flags hold, else keep `TIMEOUT`, else
`SIM_ERROR`).  Returns the status and the `tat_value` out-list. -/
def logicSimulate (cmds : List CmdResult) : Except Unit (LogicSimulation × List Int) :=
  match lsimLoop cmds false false [] none with
  | .error e => .error e
  | .ok (status, exit_success, tat_success, tat_value) =>
      if tat_success && exit_success then .ok (.SUCCESS, tat_value)
      else if status = some .TIMEOUT then .ok (.TIMEOUT, tat_value)
      else .ok (.SIM_ERROR, tat_value)

/-- The stopping classification a reader of the spec expects: the first
command that either times out or produces non-sentinel stderr. -/
inductive StopKind where
  | timeout
  | stderrText
deriving DecidableEq, Repr

def cmdStop : CmdResult → Option StopKind
  | .timedOut => some .timeout
  | .completed stderr _ =>
      if stderr ≠ "" && stderr ≠ "TimeoutExpired" then some .stderrText else none

def firstStop : List CmdResult → Option StopKind
  | [] => none
  | cmd :: rest =>
      match cmdStop cmd with
      | some k => some k
      | none => firstStop rest

/-- The commands executed before any stopping command. -/
def preStop (cmds : List CmdResult) : List CmdResult :=
  cmds.takeWhile (fun c => (cmdStop c).isNone)

def cmdLines : CmdResult → List SimLine
  | .timedOut => []
  | .completed _ lines => lines

/-- Whether any stdout line of the commands before the stop matches the
success regular expression. -/
def specOkSeen (cmds : List CmdResult) : Bool :=
  (preStop cmds).any (fun c => (cmdLines c).any (·.ok_match))

/-- Whether a stdout line carries an integer TaT capture. -/
def lineHasTat (l : SimLine) : Bool :=
  match l.tat_capture with
  | some (some _) => true
  | _ => false

/-- Whether any stdout line of the commands before the stop carries an
integer TaT capture. -/
def specTatSeen (cmds : List CmdResult) : Bool :=
  (preStop cmds).any (fun c => (cmdLines c).any lineHasTat)

/-! ## Fault model and FaultList equivalence resolution
(`zoix.py` `Fault`, `grammars/transformers.py` `FaultReportFaultListTransformer`)

A fault is reduced to the fields the equivalence resolution touches.
`equivalent_to` is an index into the list of already-constructed faults
(the Python reference to the prime `Fault` object). -/

structure Fault where
  fault_status : String
  equivalent_faults : Int
  equivalent_to : Option Nat
deriving DecidableEq, Repr

/-- Increment `equivalent_faults` of the fault at index `p`
(`self._prev_prime.equivalent_faults += 1`). -/
def bumpEquivalent : List Fault → Nat → List Fault
  | [], _ => []
  | f :: fs, 0 => { f with equivalent_faults := f.equivalent_faults + 1 } :: fs
  | f :: fs, n + 1 => f :: bumpEquivalent fs n

/-- Transformer state: `_prev_fstatus`, `_prev_prime` (an index), `_is_prime`. -/
structure FLState where
  prev_fstatus : String
  prev_prime : Option Nat
  is_prime : Bool
deriving DecidableEq, Repr

/-- One FaultList entry, reduced to its raw `fault_status` token.
First the `fault_status` callback runs (resolving `--` against
`_prev_fstatus` and raising `_is_prime`), then the `fault` callback builds
the `Fault` and resolves the equivalence.  `.error` models the
`AttributeError` when a `--` entry appears before any prime
(`self._prev_prime` is `None`). -/
def faultListStep (st : FLState) (arena : List Fault) (tok : String) :
    Except Unit (FLState × List Fault) :=
  let status := if tok = "--" then st.prev_fstatus else tok
  let is_prime := if tok = "--" then st.is_prime else true
  let prev_fstatus := if tok = "--" then st.prev_fstatus else tok
  if is_prime then
    .ok ({ prev_fstatus := prev_fstatus, prev_prime := some arena.length,
           is_prime := false },
         arena ++ [{ fault_status := status, equivalent_faults := 1, equivalent_to := none }])
  else
    match st.prev_prime with
    | none => .error ()
    | some p =>
        .ok ({ prev_fstatus := prev_fstatus, prev_prime := st.prev_prime,
               is_prime := is_prime },
             bumpEquivalent arena p ++
               [{ fault_status := status, equivalent_faults := 1, equivalent_to := some p }])

def faultListRun : List String → FLState → List Fault → Except Unit (List Fault)
  | [], _, arena => .ok arena
  | tok :: rest, st, arena =>
      match faultListStep st arena tok with
      | .error e => .error e
      | .ok (st', arena') => faultListRun rest st' arena'

/-- Parsing a FaultList section, reduced to the sequence of raw
`fault_status` tokens.  Initial state: class attributes `""`, `None`,
`False`. -/
def parseFaultList (toks : List String) : Except Unit (List Fault) :=
  faultListRun toks { prev_fstatus := "", prev_prime := none, is_prime := false } []

/-! ## Coverage computation (`zoix.py` `CSVFaultReport.compute_flist_coverage`)

The formula handed to Python's `eval` is an arithmetic expression over
2-letter identifiers; it is embedded as an AST.  Values are `ℚ`: Python
true division on the integer counts yields exact binary floats only by
accident, but every comparison made here is on exactly representable
values. -/

inductive PyExpr where
  | lit (n : Int)
  | name (s : String)
  | add (a b : PyExpr)
  | sub (a b : PyExpr)
  | mul (a b : PyExpr)
  | div (a b : PyExpr)
  | pow (a b : PyExpr)
deriving DecidableEq, Repr

/-- The identifiers occurring in the formula; for a formula whose only
uppercase 2-letter substrings are its identifiers this is what
`re.findall(r"[A-Z]{2}", formula)` produces. -/
def refNames : PyExpr → List String
  | .lit _ => []
  | .name s => [s]
  | .add a b | .sub a b | .mul a b | .div a b | .pow a b => refNames a ++ refNames b

inductive EvalErr where
  | nameError
  | zeroDivisionError
  | powError
deriving DecidableEq, Repr

/-- Evaluation of the formula over a binding environment, with `/` as true
division (raising on division by zero as Python does).  `**` is modelled
for non-negative integer exponents, the only shape the coverage formulas
use. -/
def evalPyExpr (env : String → Option ℚ) : PyExpr → Except EvalErr ℚ
  | .lit n => .ok (n : ℚ)
  | .name s =>
      match env s with
      | some v => .ok v
      | none => .error .nameError
  | .add a b => do
      let x ← evalPyExpr env a
      let y ← evalPyExpr env b
      .ok (x + y)
  | .sub a b => do
      let x ← evalPyExpr env a
      let y ← evalPyExpr env b
      .ok (x - y)
  | .mul a b => do
      let x ← evalPyExpr env a
      let y ← evalPyExpr env b
      .ok (x * y)
  | .div a b => do
      let x ← evalPyExpr env a
      let y ← evalPyExpr env b
      if y = 0 then .error .zeroDivisionError else .ok (x / y)
  | .pow a b => do
      let x ← evalPyExpr env a
      let y ← evalPyExpr env b
      if y.den = 1 ∧ 0 ≤ y.num then .ok (x ^ y.num.toNat) else .error .powError

def isUpperAZ (c : Char) : Bool :=
  'A' ≤ c && c ≤ 'Z'

/-- Embedding of `re.findall(r"([A-Z]{2})", line)`: left-to-right,
non-overlapping pairs of uppercase letters. -/
def findallTwoCaps : List Char → List String
  | a :: b :: rest =>
      if isUpperAZ a && isUpperAZ b then String.mk [a, b] :: findallTwoCaps rest
      else findallTwoCaps (b :: rest)
  | _ => []

/-- The StatusGroups line handling of `compute_flist_coverage`: strip each
line, drop empty ones, and unpack `group, *statuses` from the 2-letter
matches of each remaining line (raising when a line has none). -/
def parseStatusGroups (sffLines : List String) : Except Unit (List (String × List String)) :=
  let cleaned := (sffLines.map (fun l => String.mk (pyStrip l.toList))).filter (· ≠ "")
  cleaned.foldr
    (fun line acc => do
      let groups ← acc
      match findallTwoCaps line.toList with
      | [] => .error ()
      | g :: sts => .ok ((g, sts) :: groups))
    (.ok [])

/-- Count of faults carrying status `id` (`fault_statuses` dict). -/
def statusCount (statuses : List String) (id : String) : Nat :=
  statuses.count id

/-- Derived count of one group line: sum of the member statuses' counts,
each member contributing only when present among the fault statuses. -/
def groupValue (statuses : List String) (members : List String) : Nat :=
  (members.map (fun st => if statuses.contains st then statusCount statuses st else 0)).sum

/-- The binding environment `{**fault_statuses, **status_groups,
**non_present_statuses}`: group bindings shadow status bindings (and a
repeated group keeps its last line); identifiers referenced by the formula
that are neither statuses nor groups are bound to 0. -/
def coverageEnv (statuses : List String) (groups : List (String × List String))
    (formula : PyExpr) (id : String) : Option ℚ :=
  match groups.reverse.find? (fun g => g.1 = id) with
  | some g => some ((groupValue statuses g.2 : ℚ))
  | none =>
      if statuses.contains id then some ((statusCount statuses id : ℚ))
      else if (refNames formula).contains id then some 0
      else none

/-- Python's `round` on an exactly-representable value: round half to even
at `precision` decimal digits. -/
def pyRound (q : ℚ) (precision : Nat) : ℚ :=
  let s : ℚ := (10 : ℚ) ^ precision
  let x := q * s
  let f : Int := ⌊x⌋
  let r := x - (f : ℚ)
  let n : Int :=
    if r < 1 / 2 then f
    else if 1 / 2 < r then f + 1
    else if f % 2 = 0 then f else f + 1
  (n : ℚ) / s

inductive CoverageErr where
  | badGroupLine
  | evalError (e : EvalErr)
deriving DecidableEq, Repr

/-- `CSVFaultReport.compute_flist_coverage`, with the fault list reduced to
its per-fault status strings and the `.sff` file to the raw lines of its
`StatusGroups` section. -/
def computeFlistCoverage (statuses : List String) (sffLines : List String)
    (formula : PyExpr) (precision : Nat) : Except CoverageErr ℚ :=
  match parseStatusGroups sffLines with
  | .error _ => .error .badGroupLine
  | .ok groups =>
      match evalPyExpr (coverageEnv statuses groups formula) formula with
      | .error e => .error (.evalError e)
      | .ok v => .ok (pyRound v precision)

/-! ## Trace-database query (`a1xx.py` / `preprocessor.py`
`Preprocessor.query_trace_db`)

The single-table database is a list of rows in arrival order (`ROWID` is
the 1-based position); a row is an association list from column name to
value. -/

inductive QueryErr where
  | noRowFound
  | multipleRows
deriving DecidableEq, Repr

def rowMatches (whereEq : List (String × String)) (row : List (String × String)) : Bool :=
  whereEq.all (fun cv => row.lookup cv.1 = some cv.2)

/-- The 1-based ROWIDs of the rows matching the `where` equalities, in
ascending order. -/
def matchingRowids (rows : List (List (String × String)))
    (whereEq : List (String × String)) : List Nat :=
  (List.enumFrom 1 rows).filterMap (fun ri => if rowMatches whereEq ri.2 then some ri.1 else none)

/-- The history window for one matched ROWID `r`:
`SELECT ... WHERE ROWID <= r ORDER BY ROWID DESC LIMIT history`, then
reversed into ascending order — i.e. the last `history` of the first `r`
rows, projected on the selected column. -/
def historyWindow (rows : List (List (String × String))) (select : String)
    (r history : Nat) : List (Option String) :=
  (((rows.take r).reverse.take history).reverse).map (fun row => row.lookup select)

/-- `Preprocessor.query_trace_db`.  The `for rowid, in rowids:` loop body
only rebuilds the query string; the `cursor.execute` and the result append
sit after the loop, so only the binding left by the final iteration — the
last matched ROWID — is queried. -/
def queryTraceDb (rows : List (List (String × String))) (select : String)
    (whereEq : List (String × String)) (history : Nat) (allow_multiple : Bool) :
    Except QueryErr (List (Option String)) :=
  let rowids := matchingRowids rows whereEq
  match rowids.getLast? with
  | none => .error .noRowFound
  | some last =>
      if 1 < rowids.length && !allow_multiple then .error .multipleRows
      else .ok (historyWindow rows select last history)

/-! ## A0 statistics emission (`a0.py` `A0.run`,
`CSVCompactionStatistics.__iadd__`)

Only the control flow that decides which CSV rows are written is modelled:
the per-iteration pipeline outcome is an oracle input, and the
`iteration_stats` dictionary is a record of optional Python values whose
truthiness drives the `if any(iteration_stats.values())` guard. -/

inductive PyVal where
  | intVal (n : Int)
  | strVal (s : String)
  | ratVal (q : ℚ)
deriving DecidableEq, Repr

def pyTruthy : PyVal → Bool
  | .intVal n => n ≠ 0
  | .strVal s => s ≠ ""
  | .ratVal q => q ≠ 0

/-- The `iteration_stats` dictionary over the A0 header
`[asm_source, removed_codeline, compiles, lsim_ok, tat, fsim_ok, coverage,
verdict]`. -/
structure StatsRow where
  asm_source : Option PyVal := none
  removed_codeline : Option PyVal := none
  compiles : Option PyVal := none
  lsim_ok : Option PyVal := none
  tat : Option PyVal := none
  fsim_ok : Option PyVal := none
  coverage : Option PyVal := none
  verdict : Option PyVal := none
deriving DecidableEq, Repr

def statsFields (r : StatsRow) : List (Option PyVal) :=
  [r.asm_source, r.removed_codeline, r.compiles, r.lsim_ok, r.tat, r.fsim_ok,
   r.coverage, r.verdict]

/-- `any(iteration_stats.values())`: `None` is falsy, other values by type. -/
def anyTruthy (r : StatsRow) : Bool :=
  (statsFields r).any (fun v => (v.map pyTruthy).getD false)

/-- Outcome of one A0 iteration's tool pipeline, as observed by the loop. -/
inductive TrialOutcome where
  | compileFail
  | lsimFail (reason : String)
  | fsimFail (tat : Int) (reason : String)
  | evaluated (tat : Int) (cov : ℚ)
deriving DecidableEq, Repr

/-- The `iteration_stats` row the loop body leaves pending for one
iteration, following each branch of `A0.run`. -/
def iterationRow (asmSource removedCodeline : String) (t : TrialOutcome)
    (anchor : Int × ℚ) : StatsRow :=
  let base : StatsRow :=
    { asm_source := some (.strVal asmSource),
      removed_codeline := some (.strVal removedCodeline) }
  match t with
  | .compileFail =>
      { base with compiles := some (.strVal "NO"), verdict := some (.strVal "Restore") }
  | .lsimFail reason =>
      { base with compiles := some (.strVal "YES"),
                  lsim_ok := some (.strVal ("NO-" ++ reason)),
                  verdict := some (.strVal "Restore") }
  | .fsimFail tat reason =>
      { base with compiles := some (.strVal "YES"), lsim_ok := some (.strVal "YES"),
                  tat := some (.strVal (toString tat)),
                  fsim_ok := some (.strVal ("NO-" ++ reason)),
                  verdict := some (.strVal "Restore") }
  | .evaluated tat cov =>
      { base with compiles := some (.strVal "YES"), lsim_ok := some (.strVal "YES"),
                  tat := some (.strVal (toString tat)), fsim_ok := some (.strVal "YES"),
                  coverage := some (.ratVal cov),
                  verdict := some (.strVal
                    (if evaluate anchor (tat, cov) then "Proceed" else "Restore")) }

/-- The anchor (`old_stl_stats`) after one A0 iteration. -/
def iterationAnchor (t : TrialOutcome) (anchor : Int × ℚ) : Int × ℚ :=
  match t with
  | .evaluated tat cov => if evaluate anchor (tat, cov) then (tat, cov) else anchor
  | _ => anchor

/-- The CSV-row trace of the `while` loop of `A0.run`: at the top of each
iteration the pending row is flushed when any of its values is truthy; the
iteration's own row is left pending; nothing is flushed after the loop. -/
def a0RunAux : List (String × String × TrialOutcome) → StatsRow → Int × ℚ → List StatsRow
  | [], _, _ => []
  | (asmSource, removedCodeline, t) :: rest, pending, anchor =>
      (if anyTruthy pending then [pending] else []) ++
        a0RunAux rest (iterationRow asmSource removedCodeline t anchor)
          (iterationAnchor t anchor)

/-- The rows `A0.run` writes to the statistics CSV, given the initial
stats and the sequence of iterations.  Before the loop, `iteration_stats`
holds only the initial TaT (an `int`) and coverage (a `float`). -/
def a0RunRows (initial : Int × ℚ) (iters : List (String × String × TrialOutcome)) :
    List StatsRow :=
  a0RunAux iters
    { tat := some (.intVal initial.1), coverage := some (.ratVal initial.2) } initial

/-! ## Concrete instances used by witnesses and counterexamples -/

/-- Mnemonics of scenario S2 of the spec. -/
def s2Mnemonics : List (List Char) :=
  ["addi".toList, "nop".toList, "sub".toList]

/-- Content of scenario S2 of the spec. -/
def s2Content : List Char :=
  "section .text\naddi x1,x1,1\nnop\nsub x2,x2,x2\n".toList

def s2Handler : AsmHandlerState :=
  mkHandler s2Mnemonics s2Content 1

/-- The `nop` candidate of scenario S2 (line 2). -/
def s2Nop : Codeline :=
  { ident := 2, lineno := 2, data := "nop".toList, valid_insn := true }

/-- A source whose single instruction line is not whitespace-normalised. -/
def doubleSpaceContent : List Char :=
  "add  x1\n".toList

def doubleSpaceHandler : AsmHandlerState :=
  mkHandler ["add".toList] doubleSpaceContent 1

/-- The candidate the handler builds for `doubleSpaceContent`: its `data`
is the normalised text. -/
def doubleSpaceLine : Codeline :=
  { ident := 0, lineno := 0, data := "add x1".toList, valid_insn := true }

/-- Drop the trailing newlines of a file content: the claims allow
round-trips to differ in trailing-newline handling only. -/
def stripTrailingNewlines (s : List Char) : List Char :=
  (s.reverse.dropWhile (· = '\n')).reverse

/-! ## Claims -/

/-- Claim C10: `ISA.is_instruction` is total only on strings containing at
least one whitespace-separated token; on an empty or whitespace-only string
it raises `IndexError` (modelled by `none`) instead of returning `False`,
and otherwise it reports membership of the first token in the mnemonic
set. -/
theorem claim_C10_is_instruction_totality (mnemonics : List (List Char)) (s : List Char) :
    (isInstructionOpt mnemonics s = none ↔ s.all pyIsSpace) ∧
    (∀ t ts, pySplit s = t :: ts →
      isInstructionOpt mnemonics s = some (mnemonics.contains t)) := by
  constructor
  · rw [← pySplit_eq_nil_iff]
    unfold isInstructionOpt
    cases h : pySplit s <;> simp [h]
  · intro t ts h
    unfold isInstructionOpt
    rw [h]

/-- Claim C9 counterexample: `Codeline.__isub__` does not saturate at 0.
For `lineno = 1` and subtrahend `2` the guard `lineno > 0` passes and the
full subtraction is performed, leaving `lineno = -1 < 0`. -/
theorem claim_C9_counterexample :
    (codelineIsub { ident := 0, lineno := 1, data := [], valid_insn := true } 2).lineno = -1 ∧
    (codelineIsub { ident := 0, lineno := 1, data := [], valid_insn := true } 2).lineno < 0 :=
  ⟨by decide, by decide⟩

/-- Claim C9 (amended): for the in-place subtraction the program actually
performs, `c -= 1`, a non-negative `lineno` stays non-negative: the guard
skips the subtraction at `lineno = 0` and otherwise `lineno ≥ 1`
decrements to `≥ 0`.  (For subtrahends `n ≥ 2` the guard does not saturate
and the result can be negative.) -/
theorem claim_C9_isub_one_nonneg (c : Codeline) (h : 0 ≤ c.lineno) :
    0 ≤ (codelineIsub c 1).lineno := by
  unfold codelineIsub
  split
  · simp only []
    omega
  · exact h

theorem claim_C9_witness :
    0 ≤ (codelineIsub { ident := 0, lineno := 5, data := [], valid_insn := true } 1).lineno :=
  claim_C9_isub_one_nonneg
    { ident := 0, lineno := 5, data := [], valid_insn := true } (by decide)

/-- Claim C2: the driver accepts exactly when `tat_new ≤ tat_old` and
`cov_new ≥ cov_old`; an accepted trial under the `Threshold` policy sets
the anchor to `(tat_new, cov_old)`; consequently over any run the stored
anchor coverage under `Threshold` always remains the baseline coverage. -/
theorem claim_C2_verdict_and_threshold_anchor :
    (∀ old_stats new_stats : Int × ℚ,
      evaluate old_stats new_stats = true ↔
        (new_stats.1 ≤ old_stats.1 ∧ old_stats.2 ≤ new_stats.2)) ∧
    (∀ anchor trial : Int × ℚ, evaluate anchor trial = true →
      anchorStep .Threshold anchor trial = (trial.1, anchor.2)) ∧
    (∀ (baseline : Int × ℚ) (trials : List (Int × ℚ)),
      (trials.foldl (anchorStep .Threshold) baseline).2 = baseline.2) := by
  refine ⟨?_, ?_, ?_⟩
  · intro old_stats new_stats
    simp [evaluate]
  · intro anchor trial h
    simp [anchorStep, h, anchorUpdate]
  · intro baseline trials
    induction trials generalizing baseline with
    | nil => rfl
    | cons t ts ih =>
        rw [List.foldl_cons, ih]
        unfold anchorStep
        split
        · rfl
        · rfl

/-- The four-row trace database used for claim C7: rows 1 and 3 match
`PC = "a"`. -/
def c7TraceDb : List (List (String × String)) :=
  [[("PC", "a")], [("PC", "b")], [("PC", "a")], [("PC", "c")]]

/-- Claim C7: `query_trace_db` raises on zero matches, raises on multiple
matches without `allow_multiple` — but with `allow_multiple` and several
matched rows it returns the history window of the **last** matched row
only (here rows 1 and 3 match, and only row 3's window `[b, a]` is
returned; row 1's window never is), because the `cursor.execute` sits
after the `for rowid, in rowids:` loop instead of inside it. -/
theorem claim_C7_query_last_match_only :
    matchingRowids c7TraceDb [("PC", "a")] = [1, 3] ∧
    queryTraceDb c7TraceDb "PC" [("PC", "a")] 2 true =
      .ok [some "b", some "a"] ∧
    historyWindow c7TraceDb "PC" 1 2 = [some "a"] ∧
    queryTraceDb c7TraceDb "PC" [("PC", "z")] 2 true = .error .noRowFound ∧
    queryTraceDb c7TraceDb "PC" [("PC", "a")] 2 false = .error .multipleRows :=
  ⟨by decide, rfl, by decide, rfl, rfl⟩

/-- Claim C8: in `A0.run` a pending statistics row is flushed only at the
top of the next iteration and nothing is flushed after the loop.  A
one-iteration run writes exactly one row — the pre-loop seed row holding
the initial TaT and coverage, with no verdict — and the iteration's own
row (compiles=NO, verdict=Restore) is never written; in a two-iteration
run the first iteration's row appears but the final one is again lost. -/
theorem claim_C8_final_row_dropped :
    a0RunRows (100, 1) [("test.S", "[#2]: nop", .compileFail)] =
      [{ tat := some (.intVal 100), coverage := some (.ratVal 1) }] ∧
    a0RunRows (100, 1)
        [("test.S", "[#2]: nop", .compileFail), ("test.S", "[#3]: sub x2,x2,x2", .lsimFail "TIMEOUT")] =
      [{ tat := some (.intVal 100), coverage := some (.ratVal 1) },
       { asm_source := some (.strVal "test.S"),
         removed_codeline := some (.strVal "[#2]: nop"),
         compiles := some (.strVal "NO"),
         verdict := some (.strVal "Restore") }] :=
  ⟨by decide, by decide⟩

instance [DecidableEq ε] [DecidableEq α] : DecidableEq (Except ε α) := fun a b =>
  match a, b with
  | .error x, .error y =>
      if h : x = y then .isTrue (by rw [h])
      else .isFalse (fun hh => by cases hh; exact h rfl)
  | .ok x, .ok y =>
      if h : x = y then .isTrue (by rw [h])
      else .isFalse (fun hh => by cases hh; exact h rfl)
  | .error _, .ok _ => .isFalse (fun hh => by cases hh)
  | .ok _, .error _ => .isFalse (fun hh => by cases hh)

/-- Fault statuses of scenario S4: counts DD:10, DN:5, NA:2, DA:3 (SU does
not occur, giving it count 0). -/
def s4Statuses : List String :=
  List.replicate 10 "DD" ++ List.replicate 5 "DN" ++
    List.replicate 2 "NA" ++ List.replicate 3 "DA"

/-- A StatusGroups section for S4 whose group does not shadow any referenced
status. -/
def s4SffLines : List String :=
  ["SA \"Safe\" (UT, UB);"]

/-- The S4 formula `(DD + DN)/(NA + DA + DN + DD + SU)`. -/
def s4Formula : PyExpr :=
  .div (.add (.name "DD") (.name "DN"))
    (.add (.add (.add (.add (.name "NA") (.name "DA")) (.name "DN")) (.name "DD"))
      (.name "SU"))

theorem coverageEnv_status (statuses : List String) (groups : List (String × List String))
    (formula : PyExpr) (id : String)
    (h1 : groups.reverse.find? (fun g => g.1 = id) = none)
    (h2 : statuses.contains id = true) :
    coverageEnv statuses groups formula id = some ((statusCount statuses id : ℚ)) := by
  unfold coverageEnv
  rw [h1, h2]
  simp

theorem coverageEnv_missing (statuses : List String) (groups : List (String × List String))
    (formula : PyExpr) (id : String)
    (h1 : groups.reverse.find? (fun g => g.1 = id) = none)
    (h2 : statuses.contains id = false)
    (h3 : (refNames formula).contains id = true) :
    coverageEnv statuses groups formula id = some 0 := by
  unfold coverageEnv
  rw [h1, h2, h3]
  simp

/-- Claim C6: `compute_flist_coverage` evaluates the formula over the
per-status counts with derived group counts and missing 2-letter
identifiers bound to 0, using true division: on S4's statuses the formula
`(DD + DN)/(NA + DA + DN + DD + SU)` yields `15/20 = 0.75`; and in general
a referenced identifier matching no status and no group is bound to 0. -/
theorem claim_C6_coverage_formula :
    computeFlistCoverage s4Statuses s4SffLines s4Formula 4 = .ok (3 / 4) ∧
    (∀ (statuses : List String) (groups : List (String × List String))
        (formula : PyExpr) (id : String),
      ((groups.map Prod.fst).contains id = false) →
      (statuses.contains id = false) →
      ((refNames formula).contains id = true) →
      coverageEnv statuses groups formula id = some 0) := by
  constructor
  · have hg : parseStatusGroups s4SffLines = .ok [("SA", ["UT", "UB"])] := by decide
    unfold computeFlistCoverage
    rw [hg]
    have eDD := coverageEnv_status s4Statuses [("SA", ["UT", "UB"])] s4Formula "DD"
      (by decide) (by decide)
    have eDN := coverageEnv_status s4Statuses [("SA", ["UT", "UB"])] s4Formula "DN"
      (by decide) (by decide)
    have eNA := coverageEnv_status s4Statuses [("SA", ["UT", "UB"])] s4Formula "NA"
      (by decide) (by decide)
    have eDA := coverageEnv_status s4Statuses [("SA", ["UT", "UB"])] s4Formula "DA"
      (by decide) (by decide)
    have eSU := coverageEnv_missing s4Statuses [("SA", ["UT", "UB"])] s4Formula "SU"
      (by decide) (by decide) (by decide)
    rw [show statusCount s4Statuses "DD" = 10 from by decide] at eDD
    rw [show statusCount s4Statuses "DN" = 5 from by decide] at eDN
    rw [show statusCount s4Statuses "NA" = 2 from by decide] at eNA
    rw [show statusCount s4Statuses "DA" = 3 from by decide] at eDA
    simp only [s4Formula] at eDD eDN eNA eDA eSU ⊢
    simp only [evalPyExpr, eDD, eDN, eNA, eDA, eSU]
    norm_num
    simp only [bind, Except.bind]
    norm_num
    unfold pyRound
    norm_num
  · intro statuses groups formula id h1 h2 h3
    refine coverageEnv_missing statuses groups formula id ?_ h2 h3
    rw [List.find?_eq_none]
    intro g hg
    simp only [decide_eq_true_eq]
    intro hgid
    have : (groups.map Prod.fst).contains id = true := by
      rw [List.contains_eq_any_beq]
      rw [List.any_eq_true]
      refine ⟨g.1, ?_, by simp [hgid]⟩
      exact List.mem_map_of_mem Prod.fst (List.mem_reverse.mp hg)
    rw [this] at h1
    cases h1

/-! ### FaultList invariant lemmas -/

theorem lt_of_getElem?_eq_some {α : Type} {l : List α} {i : Nat} {a : α}
    (h : l[i]? = some a) : i < l.length := by
  by_contra hh
  rw [List.getElem?_eq_none (by omega)] at h
  cases h

theorem getElem?_append_lt {α : Type} (l1 l2 : List α) (i : Nat) (h : i < l1.length) :
    (l1 ++ l2)[i]? = l1[i]? := by
  rw [List.getElem?_append]
  exact if_pos h

theorem bumpEquivalent_length (l : List Fault) (n : Nat) :
    (bumpEquivalent l n).length = l.length := by
  induction l generalizing n with
  | nil => rfl
  | cons f fs ih =>
      cases n with
      | zero => rfl
      | succ m => simpa [bumpEquivalent] using ih m

theorem bumpEquivalent_getElem?_ne (l : List Fault) (n i : Nat) (h : i ≠ n) :
    (bumpEquivalent l n)[i]? = l[i]? := by
  induction l generalizing n i with
  | nil => rfl
  | cons f fs ih =>
      cases n with
      | zero =>
          cases i with
          | zero => exact absurd rfl h
          | succ j => simp [bumpEquivalent]
      | succ m =>
          cases i with
          | zero => simp [bumpEquivalent]
          | succ j =>
              simp only [bumpEquivalent, List.getElem?_cons_succ]
              exact ih m j (fun hh => h (by rw [hh]))

theorem bumpEquivalent_getElem?_eq (l : List Fault) (n : Nat) :
    (bumpEquivalent l n)[n]? =
      (l[n]?).map (fun f => { f with equivalent_faults := f.equivalent_faults + 1 }) := by
  induction l generalizing n with
  | nil => cases n <;> rfl
  | cons f fs ih =>
      cases n with
      | zero => simp [bumpEquivalent]
      | succ m => simpa [bumpEquivalent] using ih m

theorem bumpEquivalent_countP (l : List Fault) (n : Nat) (q : Option Nat) :
    (bumpEquivalent l n).countP (fun g => decide (g.equivalent_to = q)) =
      l.countP (fun g => decide (g.equivalent_to = q)) := by
  induction l generalizing n with
  | nil => rfl
  | cons f fs ih =>
      cases n with
      | zero => simp [bumpEquivalent, List.countP_cons]
      | succ m => simp [bumpEquivalent, List.countP_cons, ih m]

theorem bumpEquivalent_mem_equivalent_to (l : List Fault) (n : Nat) (f : Fault)
    (h : f ∈ bumpEquivalent l n) : ∃ g ∈ l, f.equivalent_to = g.equivalent_to := by
  induction l generalizing n with
  | nil => cases h
  | cons x xs ih =>
      cases n with
      | zero =>
          simp only [bumpEquivalent] at h
          rcases List.mem_cons.mp h with h | h
          · exact ⟨x, List.mem_cons_self x xs, by rw [h]⟩
          · exact ⟨f, List.mem_cons_of_mem x h, rfl⟩
      | succ m =>
          simp only [bumpEquivalent] at h
          rcases List.mem_cons.mp h with h | h
          · exact ⟨x, List.mem_cons_self x xs, by rw [h]⟩
          · rcases ih m h with ⟨g, hg, hfg⟩
            exact ⟨g, List.mem_cons_of_mem x hg, hfg⟩

/-- The arena part of the FaultList invariant: equivalence pointers go to
in-range primes, and each prime's `equivalent_faults` counts itself plus
its attached faults. -/
def ArenaInv (arena : List Fault) : Prop :=
  (∀ f ∈ arena, ∀ p, f.equivalent_to = some p →
     ∃ g, arena[p]? = some g ∧ g.equivalent_to = none) ∧
  (∀ i f, arena[i]? = some f → f.equivalent_to = none →
     f.equivalent_faults =
       1 + (arena.countP (fun g => decide (g.equivalent_to = some i)) : ℤ))

/-- The state part: `_prev_prime`, when set, references an in-range prime. -/
def StateInv (st : FLState) (arena : List Fault) : Prop :=
  ∀ p, st.prev_prime = some p → ∃ g, arena[p]? = some g ∧ g.equivalent_to = none

theorem faultListStep_inv (st : FLState) (arena : List Fault) (tok : String)
    (st' : FLState) (arena' : List Fault)
    (hstep : faultListStep st arena tok = .ok (st', arena'))
    (hA : ArenaInv arena) (hS : StateInv st arena) :
    ArenaInv arena' ∧ StateInv st' arena' := by
  obtain ⟨hPtr, hCnt⟩ := hA
  unfold faultListStep at hstep
  by_cases hp : (if tok = "--" then st.is_prime else true) = true
  · -- prime branch: a fresh prime is appended
    rw [if_pos hp] at hstep
    simp only [Except.ok.injEq, Prod.mk.injEq] at hstep
    obtain ⟨hst, harena⟩ := hstep
    subst hst harena
    set newF : Fault :=
      { fault_status := if tok = "--" then st.prev_fstatus else tok,
        equivalent_faults := 1, equivalent_to := none } with hnewF
    refine ⟨⟨?_, ?_⟩, ?_⟩
    · intro f hf p hfp
      rcases List.mem_append.mp hf with hf | hf
      · rcases hPtr f hf p hfp with ⟨g, hg, hgnone⟩
        have hplt : p < arena.length := lt_of_getElem?_eq_some hg
        refine ⟨g, ?_, hgnone⟩
        rw [getElem?_append_lt _ _ _ hplt]
        exact hg
      · simp only [List.mem_singleton] at hf
        subst hf
        simp only [hnewF] at hfp
        cases hfp
    · intro i f hif hfnone
      by_cases hlt : i < arena.length
      · rw [getElem?_append_lt _ _ _ hlt] at hif
        have := hCnt i f hif hfnone
        rw [List.countP_append]
        have hnewnot : (List.countP (fun g => decide (g.equivalent_to = some i)) [newF]) = 0 := by
          simp [hnewF]
        rw [hnewnot]
        simpa using this
      · by_cases hi : i = arena.length
        · subst hi
          rw [List.getElem?_concat_length] at hif
          cases hif
          rw [List.countP_append]
          have h1 : (List.countP (fun g => decide (g.equivalent_to = some arena.length)) [newF]) = 0 := by
            simp [hnewF]
          have h2 : arena.countP (fun g => decide (g.equivalent_to = some arena.length)) = 0 := by
            rw [List.countP_eq_zero]
            intro g hg
            simp only [decide_eq_true_eq]
            intro hgto
            rcases hPtr g hg arena.length hgto with ⟨w, hw, _⟩
            have := lt_of_getElem?_eq_some hw
            omega
          rw [h1, h2]
          simp [hnewF]
        · have : (arena ++ [newF])[i]? = none :=
            List.getElem?_eq_none
              (by simp only [List.length_append, List.length_singleton]; omega)
          rw [this] at hif
          cases hif
    · intro p hps
      simp only [Option.some.injEq] at hps
      subst hps
      refine ⟨newF, ?_, rfl⟩
      exact List.getElem?_concat_length arena newF
  · -- equivalent-fault branch: attach to the previous prime
    rw [if_neg hp] at hstep
    cases hpp : st.prev_prime with
    | none => rw [hpp] at hstep; cases hstep
    | some p =>
        rw [hpp] at hstep
        simp only [Except.ok.injEq, Prod.mk.injEq] at hstep
        obtain ⟨hst, harena⟩ := hstep
        subst hst harena
        rcases hS p hpp with ⟨g, hg, hgnone⟩
        have hplt : p < arena.length := lt_of_getElem?_eq_some hg
        set newF : Fault :=
          { fault_status := if tok = "--" then st.prev_fstatus else tok,
            equivalent_faults := 1, equivalent_to := some p } with hnewF
        set bumped := bumpEquivalent arena p with hbumped
        have hblen : bumped.length = arena.length := bumpEquivalent_length arena p
        have hbp : bumped[p]? =
            some { g with equivalent_faults := g.equivalent_faults + 1 } := by
          rw [hbumped, bumpEquivalent_getElem?_eq, hg]
          rfl
        have hprime_at (q : Nat) (hq : ∃ w, arena[q]? = some w ∧ w.equivalent_to = none) :
            ∃ w, (bumped ++ [newF])[q]? = some w ∧ w.equivalent_to = none := by
          rcases hq with ⟨w, hw, hwnone⟩
          have hqlt : q < arena.length := lt_of_getElem?_eq_some hw
          by_cases hq : q = p
          · subst hq
            refine ⟨{ g with equivalent_faults := g.equivalent_faults + 1 }, ?_, hgnone⟩
            rw [getElem?_append_lt _ _ _ (by omega)]
            exact hbp
          · refine ⟨w, ?_, hwnone⟩
            rw [getElem?_append_lt _ _ _ (by omega), hbumped,
              bumpEquivalent_getElem?_ne arena p q hq]
            exact hw
        refine ⟨⟨?_, ?_⟩, ?_⟩
        · intro f hf q hfq
          rcases List.mem_append.mp hf with hf | hf
          · rcases bumpEquivalent_mem_equivalent_to arena p f hf with ⟨orig, horig, hsame⟩
            rw [hsame] at hfq
            exact hprime_at q (hPtr orig horig q hfq)
          · simp only [List.mem_singleton] at hf
            subst hf
            simp only [hnewF, Option.some.injEq] at hfq
            subst hfq
            exact hprime_at p ⟨g, hg, hgnone⟩
        · intro i f hif hfnone
          have hcount : (bumped ++ [newF]).countP (fun x => decide (x.equivalent_to = some i)) =
              arena.countP (fun x => decide (x.equivalent_to = some i)) +
                (if p = i then 1 else 0) := by
            rw [List.countP_append, hbumped, bumpEquivalent_countP]
            by_cases hpi : p = i
            · subst hpi
              simp [hnewF]
            · simp [hnewF, hpi]
          by_cases hlt : i < arena.length
          · rw [getElem?_append_lt _ _ _ (by omega)] at hif
            by_cases hip : i = p
            · subst hip
              rw [hbp] at hif
              cases hif
              rw [hcount, if_pos rfl]
              have hgc := hCnt i g hg hgnone
              show g.equivalent_faults + 1 = _
              push_cast
              omega
            · rw [hbumped, bumpEquivalent_getElem?_ne arena p i hip] at hif
              have := hCnt i f hif hfnone
              rw [hcount, if_neg (fun hh => hip hh.symm)]
              push_cast at this ⊢
              omega
          · by_cases hi : i = arena.length
            · subst hi
              have : (bumped ++ [newF])[arena.length]? = some newF := by
                rw [show arena.length = bumped.length from hblen.symm]
                exact List.getElem?_concat_length bumped newF
              rw [this] at hif
              cases hif
              simp [hnewF] at hfnone
            · have : (bumped ++ [newF])[i]? = none :=
                List.getElem?_eq_none
                  (by simp only [List.length_append, List.length_singleton, hblen]; omega)
              rw [this] at hif
              cases hif
        · intro q hq
          simp only [hpp, Option.some.injEq] at hq
          subst hq
          exact hprime_at p ⟨g, hg, hgnone⟩

theorem faultListRun_inv (toks : List String) (st : FLState) (arena : List Fault)
    (faults : List Fault) (hrun : faultListRun toks st arena = .ok faults)
    (hA : ArenaInv arena) (hS : StateInv st arena) : ArenaInv faults := by
  induction toks generalizing st arena with
  | nil =>
      simp only [faultListRun, Except.ok.injEq] at hrun
      subst hrun
      exact hA
  | cons tok rest ih =>
      simp only [faultListRun] at hrun
      cases hstep : faultListStep st arena tok with
      | error e => rw [hstep] at hrun; cases hrun
      | ok pair =>
          rw [hstep] at hrun
          obtain ⟨hA', hS'⟩ :=
            faultListStep_inv st arena tok pair.1 pair.2 (by rw [hstep]) hA hS
          exact ih pair.1 pair.2 hrun hA' hS'

/-- Claim C5: after parsing a FaultList section the equivalence relation is
a depth-1 forest — every `equivalent_to` is `None` or references a fault
whose own `equivalent_to` is `None` — and every prime's
`equivalent_faults` equals 1 plus the number of faults attached to it. -/
theorem claim_C5_equivalence_forest (toks : List String) (faults : List Fault)
    (h : parseFaultList toks = .ok faults) :
    (∀ f ∈ faults, ∀ p, f.equivalent_to = some p →
       ∃ g, faults[p]? = some g ∧ g.equivalent_to = none) ∧
    (∀ i f, faults[i]? = some f → f.equivalent_to = none →
       f.equivalent_faults =
         1 + (faults.countP (fun g => decide (g.equivalent_to = some i)) : ℤ)) := by
  have := faultListRun_inv toks { prev_fstatus := "", prev_prime := none, is_prime := false }
    [] faults h ⟨by simp, by simp⟩ (by intro p hp; cases hp)
  exact this

/-- The fault list produced for scenario S3: one prime followed by two
equivalent faults. -/
def s3Faults : List Fault :=
  [{ fault_status := "ON", equivalent_faults := 3, equivalent_to := none },
   { fault_status := "ON", equivalent_faults := 1, equivalent_to := some 0 },
   { fault_status := "ON", equivalent_faults := 1, equivalent_to := some 0 }]

theorem claim_C5_witness :
    (∀ f ∈ s3Faults, ∀ p, f.equivalent_to = some p →
       ∃ g, s3Faults[p]? = some g ∧ g.equivalent_to = none) ∧
    (∀ i f, s3Faults[i]? = some f → f.equivalent_to = none →
       f.equivalent_faults =
         1 + (s3Faults.countP (fun g => decide (g.equivalent_to = some i)) : ℤ)) :=
  claim_C5_equivalence_forest ["ON", "--", "--"] s3Faults (by decide)

/-! ### logic_simulate characterization lemmas -/

theorem scanStdout_flags (lines : List SimLine) (es ts : Bool) (tat : List Int)
    (es' ts' : Bool) (tat' : List Int)
    (h : scanStdout lines es ts tat = .ok (es', ts', tat')) :
    es' = (es || lines.any (·.ok_match)) ∧ ts' = (ts || lines.any lineHasTat) := by
  induction lines generalizing es ts tat with
  | nil =>
      simp only [scanStdout, Except.ok.injEq, Prod.mk.injEq] at h
      obtain ⟨h1, h2, _⟩ := h
      simp [← h1, ← h2]
  | cons ln rest ih =>
      simp only [scanStdout] at h
      cases hcap : ln.tat_capture with
      | none =>
          simp only [hcap] at h
          have hln : lineHasTat ln = false := by simp [lineHasTat, hcap]
          by_cases hb : (ts && (es || ln.ok_match)) = true
          · rw [if_pos hb] at h
            simp only [Except.ok.injEq, Prod.mk.injEq] at h
            obtain ⟨h1, h2, _⟩ := h
            rw [Bool.and_eq_true] at hb
            obtain ⟨hts, hes⟩ := hb
            subst h1 h2
            constructor
            · simp [List.any_cons, ← Bool.or_assoc, hes]
            · simp [hts]
          · rw [if_neg hb] at h
            obtain ⟨h1, h2⟩ := ih (es || ln.ok_match) ts tat h
            constructor
            · rw [h1, List.any_cons, Bool.or_assoc]
            · rw [h2]
              simp [List.any_cons, hln]
      | some cap =>
          cases cap with
          | none => simp only [hcap] at h; cases h
          | some n =>
              simp only [hcap] at h
              have hln : lineHasTat ln = true := by simp [lineHasTat, hcap]
              by_cases hb : (es || ln.ok_match) = true
              · rw [if_pos hb] at h
                simp only [Except.ok.injEq, Prod.mk.injEq] at h
                obtain ⟨h1, h2, _⟩ := h
                subst h1 h2
                constructor
                · simp [List.any_cons, ← Bool.or_assoc, hb]
                · simp [List.any_cons, hln]
              · rw [if_neg hb] at h
                obtain ⟨h1, h2⟩ := ih (es || ln.ok_match) true (tat ++ [n]) h
                constructor
                · rw [h1, List.any_cons, Bool.or_assoc]
                · rw [h2, List.any_cons, hln]
                  simp

theorem lsimLoop_none_spec (cmds : List CmdResult) (es ts : Bool) (tat : List Int)
    (st : Option LogicSimulation) (es' ts' : Bool) (tat' : List Int)
    (h : lsimLoop cmds es ts tat none = .ok (st, es', ts', tat')) :
    (st = match firstStop cmds with
          | some .timeout => some LogicSimulation.TIMEOUT
          | some .stderrText => some LogicSimulation.SIM_ERROR
          | none => none) ∧
    es' = (es || (preStop cmds).any (fun c => (cmdLines c).any (·.ok_match))) ∧
    ts' = (ts || (preStop cmds).any (fun c => (cmdLines c).any lineHasTat)) := by
  induction cmds generalizing es ts tat with
  | nil =>
      simp only [lsimLoop, Except.ok.injEq, Prod.mk.injEq] at h
      obtain ⟨h1, h2, h3, _⟩ := h
      subst h1 h2 h3
      refine ⟨rfl, ?_, ?_⟩ <;> simp [preStop]
  | cons cmd rest ih =>
      cases cmd with
      | timedOut =>
          simp only [lsimLoop, Except.ok.injEq, Prod.mk.injEq] at h
          obtain ⟨h1, h2, h3, _⟩ := h
          subst h1 h2 h3
          have hstop : cmdStop CmdResult.timedOut = some StopKind.timeout := rfl
          have hfs : firstStop (CmdResult.timedOut :: rest) = some StopKind.timeout := by
            simp only [firstStop]
            rw [hstop]
          have hpre : preStop (CmdResult.timedOut :: rest) = [] := by
            simp [preStop, List.takeWhile_cons, hstop]
          rw [hfs, hpre]
          refine ⟨rfl, ?_, ?_⟩ <;> simp
      | completed stderr lines =>
          simp only [lsimLoop] at h
          by_cases hc : (stderr ≠ "" && stderr ≠ "TimeoutExpired") = true
          · rw [if_pos hc] at h
            simp only [Except.ok.injEq, Prod.mk.injEq] at h
            obtain ⟨h1, h2, h3, _⟩ := h
            subst h1 h2 h3
            have hstop : cmdStop (CmdResult.completed stderr lines) =
                some StopKind.stderrText := by
              simp only [cmdStop]
              rw [if_pos hc]
            have hfs : firstStop (CmdResult.completed stderr lines :: rest) =
                some StopKind.stderrText := by
              simp only [firstStop]
              rw [hstop]
            have hpre : preStop (CmdResult.completed stderr lines :: rest) = [] := by
              simp [preStop, List.takeWhile_cons, hstop]
            rw [hfs, hpre]
            refine ⟨rfl, ?_, ?_⟩ <;> simp
          · rw [if_neg hc] at h
            cases hscan : scanStdout lines es ts tat with
            | error e => rw [hscan] at h; cases h
            | ok triple =>
                rw [hscan] at h
                obtain ⟨hes2, hts2⟩ :=
                  scanStdout_flags lines es ts tat triple.1 triple.2.1 triple.2.2
                    (by rw [hscan])
                obtain ⟨h1, h2, h3⟩ := ih triple.1 triple.2.1 triple.2.2 h
                have hstop : cmdStop (CmdResult.completed stderr lines) = none := by
                  simp only [cmdStop]
                  rw [if_neg hc]
                have hfs : firstStop (CmdResult.completed stderr lines :: rest) =
                    firstStop rest := by
                  simp only [firstStop]
                  rw [hstop]
                have hpre : preStop (CmdResult.completed stderr lines :: rest) =
                    CmdResult.completed stderr lines :: preStop rest := by
                  simp [preStop, List.takeWhile_cons, hstop]
                refine ⟨?_, ?_, ?_⟩
                · rw [h1, hfs]
                · rw [h2, hes2, hpre, List.any_cons, Bool.or_assoc]
                  rfl
                · rw [h3, hts2, hpre, List.any_cons, Bool.or_assoc]
                  rfl

/-- Claim C4 (amended): the result of `logic_simulate` is `SUCCESS`
whenever both flags — some scanned stdout line matched
`simulation_ok_regex`, and some scanned line's TaT capture parsed as an
integer — end up true, **even when a later command timed out or produced
stderr text**; only otherwise does a timeout yield `TIMEOUT` and
non-sentinel stderr (or missing matches) yield `SIM_ERROR`. -/
theorem claim_C4_logic_simulate_status (cmds : List CmdResult)
    (status : LogicSimulation) (tat : List Int)
    (h : logicSimulate cmds = .ok (status, tat)) :
    status = (if specOkSeen cmds && specTatSeen cmds then .SUCCESS
              else match firstStop cmds with
                   | some .timeout => .TIMEOUT
                   | _ => .SIM_ERROR) := by
  unfold logicSimulate at h
  cases hl : lsimLoop cmds false false [] none with
  | error e => rw [hl] at h; cases h
  | ok quad =>
      obtain ⟨st0, es0, ts0, tat0⟩ := quad
      rw [hl] at h
      obtain ⟨h1, h2, h3⟩ :=
        lsimLoop_none_spec cmds false false [] st0 es0 ts0 tat0 hl
      rw [Bool.false_or] at h2 h3
      have hok : specOkSeen cmds = es0 := h2.symm
      have htat : specTatSeen cmds = ts0 := h3.symm
      simp only at h
      by_cases hflags : (ts0 && es0) = true
      · rw [if_pos hflags] at h
        simp only [Except.ok.injEq, Prod.mk.injEq] at h
        rw [Bool.and_eq_true] at hflags
        obtain ⟨hts, hes⟩ := hflags
        rw [hok, htat, hes, hts]
        simp [← h.1]
      · rw [if_neg hflags] at h
        have hflags2 : (specOkSeen cmds && specTatSeen cmds) = false := by
          rw [hok, htat]
          cases hq1 : es0 <;> cases hq2 : ts0 <;> simp_all
        rw [hflags2]
        simp only [Bool.false_eq_true, if_false]
        by_cases hto : st0 = some LogicSimulation.TIMEOUT
        · rw [if_pos hto] at h
          simp only [Except.ok.injEq, Prod.mk.injEq] at h
          rw [hto] at h1
          cases hfs : firstStop cmds with
          | none => rw [hfs] at h1; cases h1
          | some k =>
              cases k with
              | timeout => rw [← h.1]
              | stderrText => rw [hfs] at h1; cases h1
        · rw [if_neg hto] at h
          simp only [Except.ok.injEq, Prod.mk.injEq] at h
          cases hfs : firstStop cmds with
          | none => rw [← h.1]
          | some k =>
              cases k with
              | timeout =>
                  rw [hfs] at h1
                  exact absurd h1 hto
              | stderrText => rw [← h.1]

theorem claim_C4_witness :
    LogicSimulation.SUCCESS =
      (if specOkSeen [.completed "" [⟨true, some (some 7)⟩]] &&
            specTatSeen [.completed "" [⟨true, some (some 7)⟩]] then .SUCCESS
       else match firstStop [.completed "" [⟨true, some (some 7)⟩]] with
            | some .timeout => .TIMEOUT
            | _ => .SIM_ERROR) :=
  claim_C4_logic_simulate_status [.completed "" [⟨true, some (some 7)⟩]]
    .SUCCESS [7] (by decide)

/-- Claim C4 counterexample: a first command whose stdout satisfies both
regular expressions followed by a command that times out.  The claim as
stated demands `TIMEOUT`; the code returns `SUCCESS` because the final
`if tat_success and exit_success` overrides the timeout status recorded by
the loop break. -/
theorem claim_C4_counterexample :
    logicSimulate [.completed "" [⟨true, some (some 5)⟩], .timedOut] =
      .ok (.SUCCESS, [5]) ∧
    firstStop [.completed "" [⟨true, some (some 5)⟩], .timedOut] = some .timeout ∧
    LogicSimulation.SUCCESS ≠ LogicSimulation.TIMEOUT :=
  ⟨by decide, by decide, by decide⟩

/-- Claim C3 (amended): after `H.remove(c)` with recorded line number
`k ≥ 0`, every candidate with `line_no > k` is decremented by exactly one
and all other line numbers are unchanged, and `c` itself — its fields
unchanged — is pushed onto the changelog; but `remove` does **not** detach
`c` from `candidates` (detachment is the caller's job, via
`get_random_candidate(pop_candidate=True)`): if `c` was among the
candidates it still is afterwards. -/
theorem claim_C3_remove_effect (s : AsmHandlerState) (c : Codeline)
    (h : 0 ≤ c.lineno) :
    ((handlerRemove s c).candidates =
      s.candidates.map (List.map (fun e =>
        if c.lineno < e.lineno then { e with lineno := e.lineno - 1 } else e))) ∧
    ((handlerRemove s c).asm_file_changelog = s.asm_file_changelog ++ [c]) ∧
    (c ∈ s.candidates.flatten → c ∈ (handlerRemove s c).candidates.flatten) := by
  have hfun : (fun e => if c.lineno < e.lineno then codelineIsub e 1 else e) =
      (fun e => if c.lineno < e.lineno then { e with lineno := e.lineno - 1 } else e) := by
    funext e
    by_cases hlt : c.lineno < e.lineno
    · rw [if_pos hlt, if_pos hlt]
      unfold codelineIsub
      rw [if_pos (by omega)]
    · rw [if_neg hlt, if_neg hlt]
  refine ⟨?_, rfl, ?_⟩
  · show s.candidates.map (List.map fun e =>
        if c.lineno < e.lineno then codelineIsub e 1 else e) = _
    rw [hfun]
  · intro hmem
    rcases List.mem_flatten.mp hmem with ⟨chunk, hchunk, hc⟩
    apply List.mem_flatten.mpr
    refine ⟨chunk.map (fun e => if c.lineno < e.lineno then codelineIsub e 1 else e),
      ?_, ?_⟩
    · exact List.mem_map_of_mem _ hchunk
    · have : (if c.lineno < c.lineno then codelineIsub c 1 else c) = c := by
        rw [if_neg (by omega)]
      exact List.mem_map.mpr ⟨c, hc, this⟩

theorem claim_C3_witness :
    ((handlerRemove s2Handler s2Nop).candidates =
      s2Handler.candidates.map (List.map (fun e =>
        if s2Nop.lineno < e.lineno then { e with lineno := e.lineno - 1 } else e))) ∧
    ((handlerRemove s2Handler s2Nop).asm_file_changelog =
      s2Handler.asm_file_changelog ++ [s2Nop]) ∧
    (s2Nop ∈ s2Handler.candidates.flatten →
      s2Nop ∈ (handlerRemove s2Handler s2Nop).candidates.flatten) :=
  claim_C3_remove_effect s2Handler s2Nop (by decide)

/-- Claim C3 counterexample: in scenario S2, after `remove` of the `nop`
candidate the codeline has been pushed onto the changelog but is still
present in `candidates` — it has not been detached, contradicting the
claim. -/
theorem claim_C3_counterexample :
    (handlerRemove s2Handler s2Nop).asm_file_changelog = [s2Nop] ∧
    s2Nop ∈ (handlerRemove s2Handler s2Nop).candidates.flatten :=
  ⟨by decide, by decide⟩

/-! ### Line-splitting infrastructure for the remove/restore round trip -/

theorem splitLinesAux_flatten (s acc : List Char) :
    (splitLinesAux s acc).flatten = acc.reverse ++ s := by
  induction s generalizing acc with
  | nil =>
      by_cases h : acc.isEmpty
      · simp only [splitLinesAux, if_pos h]
        rw [List.isEmpty_iff] at h
        simp [h]
      · have hne : acc ≠ [] := by simpa [List.isEmpty_iff] using h
        simp [splitLinesAux, if_neg h, hne]
  | cons c cs ih =>
      by_cases h : c = '\n'
      · subst h
        simp [splitLinesAux, ih, List.append_assoc]
      · simp [splitLinesAux, h, ih]

theorem flatten_splitLines (s : List Char) : (splitLines s).flatten = s := by
  unfold splitLines
  simpa using splitLinesAux_flatten s []

/-- Well-formedness of a line list as produced by `splitLines`: every line
but the last ends in `'\n'` and contains no other newline; the last line is
either of that shape or a nonempty newline-free remainder. -/
inductive LinesWF : List (List Char) → Prop
  | nil : LinesWF []
  | lastBare (l : List Char) : l ≠ [] → '\n' ∉ l → LinesWF [l]
  | consNl (l : List Char) (ls : List (List Char)) (m : List Char) :
      l = m ++ ['\n'] → '\n' ∉ m → LinesWF ls → LinesWF (l :: ls)

theorem splitLinesAux_wf (s acc : List Char) (hacc : '\n' ∉ acc) :
    LinesWF (splitLinesAux s acc) := by
  induction s generalizing acc with
  | nil =>
      by_cases h : acc.isEmpty
      · simp only [splitLinesAux, if_pos h]
        exact LinesWF.nil
      · simp only [splitLinesAux, if_neg h]
        refine LinesWF.lastBare _ ?_ ?_
        · simp only [ne_eq, List.reverse_eq_nil_iff]
          rw [List.isEmpty_iff] at h
          exact h
        · simp only [List.mem_reverse]
          exact hacc
  | cons c cs ih =>
      by_cases h : c = '\n'
      · subst h
        simp only [splitLinesAux, if_pos rfl]
        refine LinesWF.consNl _ _ acc.reverse rfl ?_ (ih [] (by simp))
        simp only [List.mem_reverse]
        exact hacc
      · simp only [splitLinesAux, if_neg h]
        refine ih (c :: acc) ?_
        intro hmem
        rcases List.mem_cons.mp hmem with hmem | hmem
        · exact h hmem.symm
        · exact hacc hmem

theorem splitLines_wf (s : List Char) : LinesWF (splitLines s) :=
  splitLinesAux_wf s [] (by simp)

theorem splitLinesAux_no_newline (m acc : List Char) (hm : '\n' ∉ m) :
    splitLinesAux m acc =
      if (acc.reverse ++ m).isEmpty then [] else [acc.reverse ++ m] := by
  induction m generalizing acc with
  | nil => simp [splitLinesAux, List.isEmpty_iff]
  | cons c cs ih =>
      have hc : c ≠ '\n' := fun hh => hm (hh ▸ List.mem_cons_self c cs)
      have hcs : '\n' ∉ cs := fun hh => hm (List.mem_cons_of_mem c hh)
      simp only [splitLinesAux, if_neg hc]
      rw [ih (c :: acc) hcs]
      simp

theorem splitLinesAux_newline_block (m rest acc : List Char) (hm : '\n' ∉ m) :
    splitLinesAux (m ++ '\n' :: rest) acc =
      (acc.reverse ++ m ++ ['\n']) :: splitLinesAux rest [] := by
  induction m generalizing acc with
  | nil => simp [splitLinesAux]
  | cons c cs ih =>
      have hc : c ≠ '\n' := fun hh => hm (hh ▸ List.mem_cons_self c cs)
      have hcs : '\n' ∉ cs := fun hh => hm (List.mem_cons_of_mem c hh)
      simp only [List.cons_append, splitLinesAux, if_neg hc]
      simp only [List.append_eq]
      rw [ih (c :: acc) hcs]
      simp

theorem splitLines_flatten_of_wf (ls : List (List Char)) (h : LinesWF ls) :
    splitLines ls.flatten = ls := by
  induction h with
  | nil => rfl
  | lastBare l hne hnl =>
      unfold splitLines
      simp only [List.flatten_cons, List.flatten_nil, List.append_nil]
      rw [splitLinesAux_no_newline l [] hnl]
      simp only [List.reverse_nil, List.nil_append]
      rw [if_neg (by simpa [List.isEmpty_iff] using hne)]
  | consNl l ls m hl hm _hwf ih =>
      unfold splitLines
      subst hl
      simp only [List.flatten_cons, List.append_assoc, List.singleton_append]
      rw [splitLinesAux_newline_block m ls.flatten [] hm]
      unfold splitLines at ih
      rw [ih]
      simp

theorem LinesWF_eraseIdx (ls : List (List Char)) (h : LinesWF ls) (n : Nat) :
    LinesWF (ls.eraseIdx n) := by
  induction h generalizing n with
  | nil => simp [List.eraseIdx]; exact LinesWF.nil
  | lastBare l hne hnl =>
      cases n with
      | zero => exact LinesWF.nil
      | succ m => exact LinesWF.lastBare l hne hnl
  | consNl l ls m hl hm hwf ih =>
      cases n with
      | zero => exact hwf
      | succ k =>
          simp only [List.eraseIdx_cons_succ]
          exact LinesWF.consNl l _ m hl hm (ih k)

/-! ### removeLineAt / insertLineAt arithmetic -/

theorem removeLineAt_ofNat (ls : List (List Char)) (n : Nat) :
    removeLineAt ls (n : Int) = ls.eraseIdx n := by
  induction ls generalizing n with
  | nil => rfl
  | cons l ls ih =>
      cases n with
      | zero => simp [removeLineAt, List.eraseIdx]
      | succ m =>
          have hne : ((m + 1 : Nat) : Int) ≠ 0 := by omega
          simp only [removeLineAt, if_neg hne, List.eraseIdx_cons_succ]
          have : ((m + 1 : Nat) : Int) - 1 = (m : Int) := by omega
          rw [this, ih m]

theorem insertLineAt_ofNat (ls : List (List Char)) (n : Nat) (d : List Char)
    (h : n ≤ ls.length) :
    insertLineAt ls (n : Int) d = ls.take n ++ (d ++ ['\n']) :: ls.drop n := by
  induction ls generalizing n with
  | nil =>
      simp only [List.length_nil, Nat.le_zero] at h
      subst h
      rfl
  | cons l ls ih =>
      cases n with
      | zero => simp [insertLineAt]
      | succ m =>
          have hne : ((m + 1 : Nat) : Int) ≠ 0 := by omega
          simp only [insertLineAt, if_neg hne, List.take_succ_cons, List.drop_succ_cons]
          have hcast : ((m + 1 : Nat) : Int) - 1 = (m : Int) := by omega
          rw [hcast, ih m (by simpa using h)]
          simp

theorem set_getElem?_self {α : Type} (l : List α) (n : Nat) (a : α)
    (h : l[n]? = some a) : l.set n a = l := by
  induction l generalizing n with
  | nil => cases h
  | cons x xs ih =>
      cases n with
      | zero =>
          simp only [List.getElem?_cons_zero, Option.some.injEq] at h
          rw [← h]
          rfl
      | succ m =>
          simp only [List.getElem?_cons_succ] at h
          simp [List.set_cons_succ, ih m h]

/-! ### Construction facts: chunking and the line scan -/

theorem chunkListAux_flatten {α : Type} (cs : Nat) (hcs : 0 < cs) :
    ∀ (fuel : Nat) (l : List α), l.length ≤ fuel →
      (chunkListAux cs fuel l).flatten = l := by
  intro fuel
  induction fuel with
  | zero =>
      intro l hl
      cases l with
      | nil => rfl
      | cons x xs => simp at hl
  | succ fuel ih =>
      intro l hl
      cases l with
      | nil => rfl
      | cons x xs =>
          simp only [chunkListAux, if_neg (by omega : ¬cs = 0), List.flatten_cons]
          rw [ih ((x :: xs).drop cs) (by
            simp only [List.length_drop, List.length_cons]
            simp only [List.length_cons] at hl
            omega)]
          exact List.take_append_drop cs (x :: xs)

theorem chunkList_flatten {α : Type} (cs : Nat) (hcs : 0 < cs) (l : List α) :
    (chunkList cs l).flatten = l :=
  chunkListAux_flatten cs hcs l.length l le_rfl

theorem mem_of_mem_chunkList {α : Type} (cs : Nat) (hcs : 0 < cs) (l : List α)
    (x : α) (h : x ∈ (chunkList cs l).flatten) : x ∈ l := by
  rwa [chunkList_flatten cs hcs] at h

/-- Every codeline produced by the construction scan records its original
0-based line number as both `ident` and `lineno`, and its `data` is the
nonempty normalisation of that source line. -/
theorem scanCodeArea_mem (mnemonics : List (List Char)) (ls : List (List Char))
    (i : Nat) (cl : Codeline) (h : cl ∈ scanCodeArea mnemonics ls i) :
    ∃ j raw, ls[j]? = some raw ∧ cl.ident = i + j ∧
      cl.lineno = ((i + j : Nat) : Int) ∧ cl.data = normalizeLine raw ∧
      normalizeLine raw ≠ [] := by
  induction ls generalizing i with
  | nil => cases h
  | cons l rest ih =>
      simp only [scanCodeArea] at h
      by_cases hnl : normalizeLine l = []
      · rw [if_pos hnl] at h
        rcases ih (i + 1) h with ⟨j, raw, hj, h1, h2, h3, h4⟩
        refine ⟨j + 1, raw, by simpa using hj, by omega, ?_, h3, h4⟩
        rw [h2]
        congr 1
        omega
      · rw [if_neg hnl] at h
        rcases List.mem_cons.mp h with h | h
        · subst h
          exact ⟨0, l, by simp, by simp, by simp, rfl, hnl⟩
        · rcases ih (i + 1) h with ⟨j, raw, hj, h1, h2, h3, h4⟩
          refine ⟨j + 1, raw, by simpa using hj, by omega, ?_, h3, h4⟩
          rw [h2]
          congr 1
          omega

theorem scanCodeArea_ident_lower (mnemonics : List (List Char)) (ls : List (List Char))
    (i : Nat) (cl : Codeline) (h : cl ∈ scanCodeArea mnemonics ls i) : i ≤ cl.ident := by
  rcases scanCodeArea_mem mnemonics ls i cl h with ⟨j, raw, _, h1, _⟩
  omega

theorem scanCodeArea_ident_inj (mnemonics : List (List Char)) (ls : List (List Char))
    (i : Nat) (cl1 cl2 : Codeline) (h1 : cl1 ∈ scanCodeArea mnemonics ls i)
    (h2 : cl2 ∈ scanCodeArea mnemonics ls i) (heq : cl1.ident = cl2.ident) :
    cl1 = cl2 := by
  induction ls generalizing i with
  | nil => cases h1
  | cons l rest ih =>
      simp only [scanCodeArea] at h1 h2
      by_cases hnl : normalizeLine l = []
      · rw [if_pos hnl] at h1 h2
        exact ih (i + 1) h1 h2
      · rw [if_neg hnl] at h1 h2
        rcases List.mem_cons.mp h1 with h1 | h1 <;> rcases List.mem_cons.mp h2 with h2 | h2
        · rw [h1, h2]
        · exfalso
          have := scanCodeArea_ident_lower mnemonics rest (i + 1) cl2 h2
          rw [h1] at heq
          simp only at heq
          omega
        · exfalso
          have := scanCodeArea_ident_lower mnemonics rest (i + 1) cl1 h1
          rw [h2] at heq
          simp only at heq
          omega
        · exact ih (i + 1) h1 h2

/-- Claim C1 (amended): for a handler constructed from source `S` and any
candidate `c`, `remove(c)` followed by `restore()` restores `candidates`
and the changelog exactly; the on-disk file equals `S` with the removed
line rewritten as its whitespace-normalised text plus a newline (`restore`
writes `codeline.data + "\n"`, not the original raw line) — so byte-for-byte
equality holds precisely when the original line already was its normalised
form followed by a newline. -/
theorem claim_C1_remove_restore_roundtrip (mnemonics : List (List Char))
    (S : List Char) (cs : Nat) (hcs : 0 < cs) (c : Codeline)
    (hmem : c ∈ (mkHandler mnemonics S cs).candidates.flatten) :
    (handlerRestore (handlerRemove (mkHandler mnemonics S cs) c)).candidates =
      (mkHandler mnemonics S cs).candidates ∧
    (handlerRestore (handlerRemove (mkHandler mnemonics S cs) c)).asm_file_changelog = [] ∧
    (handlerRestore (handlerRemove (mkHandler mnemonics S cs) c)).file =
      ((splitLines S).set c.lineno.toNat (c.data ++ ['\n'])).flatten ∧
    ((splitLines S)[c.lineno.toNat]? = some (c.data ++ ['\n']) →
      (handlerRestore (handlerRemove (mkHandler mnemonics S cs) c)).file = S) := by
  have hcands : (mkHandler mnemonics S cs).candidates =
      chunkList cs ((scanCodeArea mnemonics (splitLines S) 0).filter (·.valid_insn)) := rfl
  have hfile : (mkHandler mnemonics S cs).file = S := rfl
  have hmemflat : c ∈ (scanCodeArea mnemonics (splitLines S) 0).filter (·.valid_insn) := by
    rw [hcands] at hmem
    exact mem_of_mem_chunkList cs hcs _ c hmem
  have hmemcode : c ∈ scanCodeArea mnemonics (splitLines S) 0 :=
    List.mem_of_mem_filter hmemflat
  obtain ⟨j, raw, hraw, hident, hlineno, hdata, hdne⟩ :=
    scanCodeArea_mem mnemonics (splitLines S) 0 c hmemcode
  rw [Nat.zero_add] at hident hlineno
  have hjlt : j < (splitLines S).length := lt_of_getElem?_eq_some hraw
  -- the state after remove
  have hrm : handlerRemove (mkHandler mnemonics S cs) c =
      { file := fileRemove S c.lineno,
        candidates := (mkHandler mnemonics S cs).candidates.map (List.map (fun cl =>
          if c.lineno < cl.lineno then codelineIsub cl 1 else cl)),
        asm_file_changelog := [c] } := rfl
  -- the state after restore
  have hrs : handlerRestore (handlerRemove (mkHandler mnemonics S cs) c) =
      { file := fileRestore (fileRemove S c.lineno) c.lineno c.data,
        candidates := ((mkHandler mnemonics S cs).candidates.map (List.map (fun cl =>
          if c.lineno < cl.lineno then codelineIsub cl 1 else cl))).map (List.map (fun cl =>
            if cl.ident = c.ident then cl
            else if c.lineno ≤ cl.lineno then codelineIadd cl 1 else cl)),
        asm_file_changelog := [] } := rfl
  rw [hrs]
  -- pointwise inverse on every constructed candidate
  have hpoint : ∀ e ∈ (scanCodeArea mnemonics (splitLines S) 0).filter (·.valid_insn),
      (fun cl => if cl.ident = c.ident then cl
                 else if c.lineno ≤ cl.lineno then codelineIadd cl 1 else cl)
        ((fun cl => if c.lineno < cl.lineno then codelineIsub cl 1 else cl) e) = e := by
    intro e hef
    beta_reduce
    have hecode : e ∈ scanCodeArea mnemonics (splitLines S) 0 :=
      List.mem_of_mem_filter hef
    obtain ⟨je, rawe, hrawe, hide, hlne, _, _⟩ :=
      scanCodeArea_mem mnemonics (splitLines S) 0 e hecode
    rw [Nat.zero_add] at hide hlne
    by_cases hid : e.ident = c.ident
    · have he : e = c :=
        scanCodeArea_ident_inj mnemonics (splitLines S) 0 e c hecode hmemcode hid
      subst he
      simp [lt_irrefl]
    · have hjne : je ≠ j := by
        intro hh
        exact hid (by rw [hide, hident, hh])
      have hlnene : e.lineno ≠ c.lineno := by
        rw [hlne, hlineno]
        intro hh
        exact hjne (by exact_mod_cast hh)
      by_cases hlt : c.lineno < e.lineno
      · rw [if_pos hlt]
        have hpos : 0 < e.lineno := by
          rw [hlineno] at hlt
          omega
        have hisub : codelineIsub e 1 = { e with lineno := e.lineno - 1 } := by
          unfold codelineIsub
          rw [if_pos hpos]
        rw [hisub]
        have hident2 : ({ e with lineno := e.lineno - 1 } : Codeline).ident = e.ident := rfl
        rw [if_neg (by rw [hident2]; exact hid)]
        rw [if_pos (by show c.lineno ≤ e.lineno - 1; omega)]
        unfold codelineIadd
        cases e
        simp only [Codeline.mk.injEq, true_and, and_true]
        omega
      · rw [if_neg hlt, if_neg hid,
          if_neg (by intro hh; rcases lt_or_eq_of_le hh with hh | hh
                     · exact hlt hh
                     · exact hlnene hh.symm)]
  refine ⟨?_, rfl, ?_, ?_⟩
  · -- candidates are restored exactly
    rw [List.map_map, hcands]
    have houter : ∀ chunk ∈ chunkList cs
        ((scanCodeArea mnemonics (splitLines S) 0).filter (·.valid_insn)),
        ((List.map (fun cl => if cl.ident = c.ident then cl
            else if c.lineno ≤ cl.lineno then codelineIadd cl 1 else cl)) ∘
         (List.map (fun cl => if c.lineno < cl.lineno then codelineIsub cl 1 else cl)))
          chunk = chunk := by
      intro chunk hchunk
      simp only [Function.comp_apply, List.map_map]
      have : ∀ e ∈ chunk,
          ((fun cl => if cl.ident = c.ident then cl
              else if c.lineno ≤ cl.lineno then codelineIadd cl 1 else cl) ∘
           (fun cl => if c.lineno < cl.lineno then codelineIsub cl 1 else cl)) e = e := by
        intro e he
        have hef : e ∈ (scanCodeArea mnemonics (splitLines S) 0).filter (·.valid_insn) := by
          refine mem_of_mem_chunkList cs hcs _ e ?_
          exact List.mem_flatten.mpr ⟨chunk, hchunk, he⟩
        exact hpoint e hef
      rw [List.map_congr_left this]
      simp
    rw [List.map_congr_left houter]
    simp
  · -- the file after the round trip
    show fileRestore (fileRemove S c.lineno) c.lineno c.data = _
    have htonat : c.lineno.toNat = j := by
      rw [hlineno]
      exact Int.toNat_natCast j
    rw [htonat]
    have h1 : fileRemove S c.lineno = ((splitLines S).eraseIdx j).flatten := by
      unfold fileRemove
      rw [hlineno, removeLineAt_ofNat]
    have h2 : splitLines (((splitLines S).eraseIdx j).flatten) = (splitLines S).eraseIdx j :=
      splitLines_flatten_of_wf _ (LinesWF_eraseIdx _ (splitLines_wf S) j)
    have hlen : ((splitLines S).eraseIdx j).length = (splitLines S).length - 1 := by
      rw [List.length_eraseIdx]
      simp [hjlt]
    unfold fileRestore
    rw [h1, h2, hlineno, insertLineAt_ofNat _ j _ (by omega)]
    rw [List.eraseIdx_eq_take_drop_succ]
    have htake : (((splitLines S).take j ++ (splitLines S).drop (j + 1)).take j) =
        (splitLines S).take j :=
      List.take_left' (by rw [List.length_take]; omega)
    have hdrop : (((splitLines S).take j ++ (splitLines S).drop (j + 1)).drop j) =
        (splitLines S).drop (j + 1) :=
      List.drop_left' (by rw [List.length_take]; omega)
    rw [htake, hdrop]
    have hset : (splitLines S).set j (c.data ++ ['\n']) =
        (splitLines S).take j ++ (c.data ++ ['\n']) :: (splitLines S).drop (j + 1) := by
      rw [List.set_eq_take_append_cons_drop, if_pos hjlt]
    rw [hset]
  · -- byte-for-byte equality when the raw line was already normalised
    intro hget
    have htonat : c.lineno.toNat = j := by rw [hlineno, Int.toNat_natCast]
    rw [htonat] at hget
    show fileRestore (fileRemove S c.lineno) c.lineno c.data = S
    have h1 : fileRemove S c.lineno = ((splitLines S).eraseIdx j).flatten := by
      unfold fileRemove
      rw [hlineno, removeLineAt_ofNat]
    have h2 : splitLines (((splitLines S).eraseIdx j).flatten) = (splitLines S).eraseIdx j :=
      splitLines_flatten_of_wf _ (LinesWF_eraseIdx _ (splitLines_wf S) j)
    have hlen : ((splitLines S).eraseIdx j).length = (splitLines S).length - 1 := by
      rw [List.length_eraseIdx]
      simp [hjlt]
    unfold fileRestore
    rw [h1, h2, hlineno, insertLineAt_ofNat _ j _ (by omega)]
    rw [List.eraseIdx_eq_take_drop_succ]
    have htake : (((splitLines S).take j ++ (splitLines S).drop (j + 1)).take j) =
        (splitLines S).take j :=
      List.take_left' (by rw [List.length_take]; omega)
    have hdrop : (((splitLines S).take j ++ (splitLines S).drop (j + 1)).drop j) =
        (splitLines S).drop (j + 1) :=
      List.drop_left' (by rw [List.length_take]; omega)
    rw [htake, hdrop]
    have hset : (splitLines S).take j ++ (c.data ++ ['\n']) :: (splitLines S).drop (j + 1) =
        (splitLines S).set j (c.data ++ ['\n']) := by
      rw [List.set_eq_take_append_cons_drop, if_pos hjlt]
    rw [hset, set_getElem?_self _ j _ hget, flatten_splitLines]

theorem claim_C1_witness :
    (handlerRestore (handlerRemove s2Handler s2Nop)).candidates =
      s2Handler.candidates ∧
    (handlerRestore (handlerRemove s2Handler s2Nop)).asm_file_changelog = [] ∧
    (handlerRestore (handlerRemove s2Handler s2Nop)).file =
      ((splitLines s2Content).set s2Nop.lineno.toNat (s2Nop.data ++ ['\n'])).flatten ∧
    ((splitLines s2Content)[s2Nop.lineno.toNat]? = some (s2Nop.data ++ ['\n']) →
      (handlerRestore (handlerRemove s2Handler s2Nop)).file = s2Content) :=
  claim_C1_remove_restore_roundtrip s2Mnemonics s2Content 1 (by decide) s2Nop (by decide)

/-- Claim C1 counterexample: a source whose single instruction line
contains a double space.  The candidate is legitimate, `remove` then
`restore` restores `candidates`, but the file comes back as the normalised
`"add x1\n"` instead of the original `"add  x1\n"` — a difference that is
not trailing-newline handling. -/
theorem claim_C1_counterexample :
    doubleSpaceLine ∈ doubleSpaceHandler.candidates.flatten ∧
    (handlerRestore (handlerRemove doubleSpaceHandler doubleSpaceLine)).candidates =
      doubleSpaceHandler.candidates ∧
    stripTrailingNewlines
        (handlerRestore (handlerRemove doubleSpaceHandler doubleSpaceLine)).file ≠
      stripTrailingNewlines doubleSpaceContent :=
  ⟨by decide, by decide, by decide⟩

end TestCrush
